import Mathlib

/-!
# A verification development for the ghfs generational repository cache

This file gives a shallow embedding, in Lean 4, of the core data model and
operations of the ghfs codebase (a read-only GitHub filesystem backed by a
generational on-disk cache), together with theorems about them.

Modelling conventions, used throughout:

* Rust strings are embedded as `List Char`.  All validation in the source
  operates on ASCII characters, and the one byte-level check
  (`value.bytes().any(|b| b == 0 || b < 0x20)`) is equivalent, for UTF-8
  strings, to the same check on characters, since multi-byte encodings only
  produce bytes `≥ 0x80`.
* Rust `u64` values are embedded as `Nat`; where the source's checked
  parsing bounds a value by `u64::MAX` the embedding carries the explicit
  `< 2 ^ 64` bound.
* Fallible operations return `Except` with error types mirroring the
  source's `thiserror` enums.
* The per-repo on-disk cache state and the external world (clock, git
  subprocess outcomes, lock contention) are made explicit as a state record
  and an environment record; operations are pure functions of both and also
  return a trace of the side effects (lock acquisitions, git subprocess
  spawns, filesystem writes) they perform.
-/

/-! ## ghfs-types: validated identifiers (crates/ghfs-types/src/lib.rs) -/

/-- Embeds `ghfs_types::ParseError`. -/
inductive ParseError where
  | Empty : ParseError
  | InvalidCharacter (c : Char) : ParseError
  | InvalidStart (c : Char) : ParseError
  | InvalidEnd (c : Char) : ParseError
  | MissingSeparator : ParseError
  | InvalidOwner (e : ParseError) : ParseError
  | InvalidRepo (e : ParseError) : ParseError
deriving DecidableEq, Repr

/-- Embeds `ghfs_types::Owner`: a validated GitHub owner name. -/
structure Owner where
  val : List Char
deriving DecidableEq, Repr

/-- Embeds `ghfs_types::Repo`: a validated GitHub repository name. -/
structure Repo where
  val : List Char
deriving DecidableEq, Repr

/-- A character rejected inside an owner name: the source accepts ASCII
alphanumerics and the hyphen (`c.is_ascii_alphanumeric() && c != '-'`
negated). -/
def badOwnerChar (c : Char) : Bool :=
  !(c.isAlphanum || c == '-')

/-- A character rejected inside a repo name: ASCII alphanumerics, hyphen,
underscore and dot are accepted. -/
def badRepoChar (c : Char) : Bool :=
  !(c.isAlphanum || c == '-' || c == '_' || c == '.')

/-- Embeds `impl FromStr for Owner`.  Checks, in source order: non-empty, no
leading hyphen, no trailing hyphen, every character alphanumeric-or-hyphen
(reporting the first offending character). -/
def Owner.fromStr (s : List Char) : Except ParseError Owner :=
  if s = [] then .error .Empty
  else if s.head? = some '-' then .error (.InvalidStart '-')
  else if s.getLast? = some '-' then .error (.InvalidEnd '-')
  else
    match s.find? badOwnerChar with
    | some c => .error (.InvalidCharacter c)
    | none => .ok ⟨s⟩

/-- Embeds `impl FromStr for Repo`.  Checks, in source order: non-empty, no
leading dot, every character alphanumeric, hyphen, underscore or dot. -/
def Repo.fromStr (s : List Char) : Except ParseError Repo :=
  if s = [] then .error .Empty
  else if s.head? = some '.' then .error (.InvalidStart '.')
  else
    match s.find? badRepoChar with
    | some c => .error (.InvalidCharacter c)
    | none => .ok ⟨s⟩

/-- Embeds `ghfs_types::RepoKey`. -/
structure RepoKey where
  owner : Owner
  repo : Repo
deriving DecidableEq, Repr

/-- Embeds Rust's `str::split_once`: splits at the first occurrence of `sep`,
returning the parts before and after it, or `none` when `sep` does not
occur. -/
def splitOnce (sep : Char) : List Char → Option (List Char × List Char)
  | [] => none
  | c :: rest =>
    if c = sep then some ([], rest)
    else
      match splitOnce sep rest with
      | some (a, b) => some (c :: a, b)
      | none => none

/-- Embeds `impl FromStr for RepoKey`: `split_once('/')`, then parse each
side, wrapping failures in `InvalidOwner` / `InvalidRepo`. -/
def RepoKey.fromStr (s : List Char) : Except ParseError RepoKey :=
  match splitOnce '/' s with
  | none => .error .MissingSeparator
  | some (ownerStr, repoStr) =>
    match Owner.fromStr ownerStr with
    | .error e => .error (.InvalidOwner e)
    | .ok owner =>
      match Repo.fromStr repoStr with
      | .error e => .error (.InvalidRepo e)
      | .ok repo => .ok ⟨owner, repo⟩

/-- Embeds `impl Display for RepoKey`: `<owner>/<repo>`. -/
def RepoKey.toDisplay (k : RepoKey) : List Char :=
  k.owner.val ++ '/' :: k.repo.val

/-! ## Git driver input validation (src/src/cache/git.rs) -/

/-- Embeds `cache::git::GitError`.  Error payloads (captured stderr or
messages) are carried as strings. -/
inductive GitError where
  | Git (msg : List Char) : GitError
  | NotFound (path : List Char) : GitError
  | ParseError (msg : List Char) : GitError
  | WorktreeError (msg : List Char) : GitError
  | CloneError (msg : List Char) : GitError
  | FetchError (msg : List Char) : GitError
  | Io (msg : List Char) : GitError
  | InvalidInput (msg : List Char) : GitError
deriving DecidableEq, Repr

/-- Whether a string contains two consecutive dots — embeds
`value.contains("..")` (a substring of two identical characters occurs iff
two consecutive occurrences exist). -/
def containsDotDot : List Char → Bool
  | '.' :: '.' :: _ => true
  | _ :: rest => containsDotDot rest
  | [] => false

/-- A NUL or control byte — embeds `value.bytes().any(|b| b == 0 || b < 0x20)`
at character level (equivalent for UTF-8, see the header comment). -/
def isControlByte (c : Char) : Bool :=
  c.toNat == 0 || c.toNat < 0x20

/-- Embeds `cache::git::validate_git_ref`: rejects, in source order, empty
strings, strings containing `..`, strings starting with `-`, and strings
containing NUL or control characters.  `name` is the diagnostic label. -/
def validateGitRef (value name : List Char) : Except GitError Unit :=
  if value = [] then
    .error (.InvalidInput (name ++ (" cannot be empty".toList)))
  else if containsDotDot value then
    .error (.InvalidInput (name ++ (" cannot contain dotdot".toList)))
  else if value.head? = some '-' then
    .error (.InvalidInput (name ++ (" cannot start with dash".toList)))
  else if value.any isControlByte then
    .error (.InvalidInput (name ++ (" cannot contain null or control characters".toList)))
  else .ok ()

/-- Embeds `cache::git::validate_name`: like `validateGitRef` but
additionally rejects `/` and `\` (path separators), checked between the
`..` and leading-dash checks, as in the source. -/
def validateName (value name : List Char) : Except GitError Unit :=
  if value = [] then
    .error (.InvalidInput (name ++ (" cannot be empty".toList)))
  else if containsDotDot value then
    .error (.InvalidInput (name ++ (" cannot contain dotdot".toList)))
  else if value.contains '/' || value.contains '\\' then
    .error (.InvalidInput (name ++ (" cannot contain path separators".toList)))
  else if value.head? = some '-' then
    .error (.InvalidInput (name ++ (" cannot start with dash".toList)))
  else if value.any isControlByte then
    .error (.InvalidInput (name ++ (" cannot contain null or control characters".toList)))
  else .ok ()

/-! ## Generation names (cache/repo.rs, crates/ghfs-cache/src/paths.rs) -/

/-- Embeds Rust's `str::parse::<u64>()`: an optional leading `+`, then one or
more ASCII digits, value bounded by `u64::MAX`. -/
def parseU64 (s : List Char) : Option Nat :=
  let t := if s.head? = some '+' then s.drop 1 else s
  if t = [] then none
  else if t.all Char.isDigit then
    let n := t.foldl (fun a c => a * 10 + (c.toNat - 48)) 0
    if n < 2 ^ 64 then some n else none
  else none

/-- Embeds `cache::repo::parse_generation_number`:
`name.strip_prefix("gen-").and_then(|num| num.parse::<u64>().ok())`. -/
def parseGenerationNumber (name : List Char) : Option Nat :=
  match name with
  | 'g' :: 'e' :: 'n' :: '-' :: num => parseU64 num
  | _ => none

/-- Fuel-based digit accumulation for `natDecimalRepr` (fuel bounds the
number of division steps, like core's `Nat.toDigitsCore`). -/
def toDecimalAux : Nat → Nat → List Char
  | 0, _ => []
  | fuel + 1, n =>
    if n = 0 then []
    else toDecimalAux fuel (n / 10) ++ [Char.ofNat (48 + n % 10)]

/-- Decimal digit characters of `n`, most significant first (`"0"` for 0) —
the embedding of Rust's `Display for u64`. -/
def natDecimalRepr (n : Nat) : List Char :=
  if n = 0 then ['0'] else toDecimalAux (n + 1) n

/-- Embeds the `format!("gen-{:0>6}", generation)` of
`CachePaths::generation_dir`: the decimal representation padded on the left
with `'0'` up to width 6 (printed verbatim when longer). -/
def generationDirName (generation : Nat) : List Char :=
  ("gen-".toList) ++ (List.replicate (6 - (natDecimalRepr generation).length) '0'
    ++ natDecimalRepr generation)

/-! ## Cache data model (cache/repo.rs, ghfs-cache: staleness.rs, swap.rs, lock.rs)

The on-disk state of one repository's cache slice is made explicit:

* `MirrorDir` models `mirrors/<owner>/<repo>.git`: absent, present but not
  openable as a git repository, or an openable repository with a default
  branch, a HEAD commit and a shallowness flag.  `resolve_default_branch`
  is modelled as always succeeding on an openable repository (a malformed
  HEAD is folded into `MirrorDir.invalid`).
* `DirEntry` models one entry of `worktrees/<owner>/<repo>/`; `headCommit`
  is `some c` when `open_repository` + `head().peel_to_commit()` at that
  path would succeed and yield `c`.
* `CurrentLink` models the `current` symlink: the final path component of
  its target (`resolve_symlink_target` + `file_name()` are collapsed into
  storing the basename directly) and its mtime in abstract clock ticks.

The environment `Env` fixes the outcomes of all external interactions of
one cache operation: the clock, lock acquisition, and the git subprocess
results.  `Effect` traces record lock acquisitions, subprocess spawns and
filesystem writes, in program order. -/

/-- Embeds the contents of an openable bare mirror repository. -/
structure Mirror where
  branch : List Char
  head : List Char
  shallow : Bool
deriving DecidableEq, Repr

/-- The state of the mirror directory path. -/
inductive MirrorDir where
  | absent : MirrorDir
  | invalid : MirrorDir
  | repo (m : Mirror) : MirrorDir
deriving DecidableEq, Repr

/-- Embeds `mirror_path.exists()`. -/
def MirrorDir.existsOnDisk : MirrorDir → Bool
  | .absent => false
  | .invalid => true
  | .repo _ => true

/-- One directory entry of `worktrees/<owner>/<repo>/`. -/
structure DirEntry where
  name : List Char
  isDir : Bool
  headCommit : Option (List Char)
deriving DecidableEq, Repr

/-- The `current` symlink: target basename and mtime. -/
structure CurrentLink where
  target : List Char
  mtime : Nat
deriving DecidableEq, Repr

/-- The cache state for one repository key. -/
structure RepoState where
  mirror : MirrorDir
  entries : List DirEntry
  current : Option CurrentLink
deriving DecidableEq, Repr

/-- Embeds `cache::repo::CacheError`. -/
inductive CacheError where
  | Git (e : GitError) : CacheError
  | Io (msg : List Char) : CacheError
  | LockFailed : CacheError
  | InvalidGenerationName (s : List Char) : CacheError
  | SymlinkTargetMissing (p : List Char) : CacheError
  | RepoNotFound (s : List Char) : CacheError
deriving DecidableEq, Repr

/-- Embeds `cache::repo::GenerationRef` (the path is modelled by the
generation directory's basename). -/
structure GenerationRef where
  path : List Char
  generation : Nat
  commit : List Char
deriving DecidableEq, Repr

/-- Embeds `cache::repo::EnsureCurrentResult`. -/
structure EnsureCurrentResult where
  genRef : GenerationRef
  refreshed : Bool
deriving DecidableEq, Repr

/-- Outcome of `RepoLock::acquire`: success, `ErrorKind::TimedOut`, or some
other io error. -/
inductive LockResult where
  | ok : LockResult
  | timedOut : LockResult
  | ioErr (msg : List Char) : LockResult
deriving DecidableEq, Repr

/-- Observable side effects of a cache operation, in program order. -/
inductive Effect where
  | lockAcquire : Effect
  | spawnGit : Effect
  | fsWrite : Effect
deriving DecidableEq, Repr

/-- The fixed outcomes of all external interactions during one cache
operation: current time, lock acquisition, and for each kind of git
subprocess its result (`clone` yields the cloned mirror's branch and HEAD,
`fetch` yields the new HEAD installed for the fetched branch). -/
structure Env where
  now : Nat
  lock : LockResult
  clone : Except (List Char) (List Char × List Char)
  fetch : Except (List Char) (List Char)
  worktree : Except (List Char) Unit
  swapOk : Bool
  touchOk : Bool

/-! ## Staleness, symlink swap and reads -/

/-- Embeds `ghfs_cache::staleness::is_stale`: stale when the symlink is
missing (metadata-read failures are modelled only by absence), or its mtime
is older than `now - max_age` (`checked_sub` clamped at the epoch, exactly
as `Nat` subtraction clamps at 0). -/
def isStale (cur : Option CurrentLink) (maxAge now : Nat) : Bool :=
  match cur with
  | none => true
  | some l => decide (l.mtime < now - maxAge)

/-- Embeds `current_link.exists()`: `Path::exists` follows symlinks, so a
dangling `current` (target basename not among the directory entries) does
not count as existing. -/
def currentLinkExists (s : RepoState) : Bool :=
  match s.current with
  | none => false
  | some l => (s.entries.find? (fun e => e.name == l.target)).isSome

/-- Embeds `cache::swap::atomic_symlink_swap` at the `current` symlink:
on success `current` points at `target` with a fresh mtime; the temp-link
creation and rename are one or more filesystem writes either way. -/
def atomicSymlinkSwap (env : Env) (target : List Char) (s : RepoState) :
    Except (List Char) Unit × RepoState × List Effect :=
  if env.swapOk then
    (.ok (), { s with current := some ⟨target, env.now⟩ }, [.fsWrite])
  else
    (.error ("rename failed".toList), s, [.fsWrite])

/-- Embeds `ghfs_cache::staleness::touch_symlink`: read the current target,
then atomically re-swap `current` onto that same target, bumping its mtime. -/
def touchSymlink (env : Env) (s : RepoState) :
    Except (List Char) Unit × RepoState × List Effect :=
  match s.current with
  | none => (.error ("read_link failed".toList), s, [])
  | some l =>
    if env.touchOk then
      (.ok (), { s with current := some ⟨l.target, env.now⟩ }, [.fsWrite])
    else
      (.error ("rename failed".toList), s, [.fsWrite])

/-- Embeds `cache::repo::cleanup_worktree`: removal of the named entry
(`remove_dir_all` with a `remove_file` fallback; removal is modelled as
succeeding). -/
def cleanupWorktree (name : List Char) (s : RepoState) : RepoState :=
  { s with entries := s.entries.filter (fun e => !(e.name == name)) }

/-- Embeds `RepoCache::list_generation_numbers`: directory entries (only
directories) whose names parse as generations. -/
def listGenerationNumbers (entries : List DirEntry) : List Nat :=
  entries.filterMap (fun e => if e.isDir then parseGenerationNumber e.name else none)

/-- Embeds `RepoCache::next_generation`: one more than the highest existing
generation (`max().unwrap_or(0)` then `+ 1`).  The increment is a `u64`
addition, modelled with release-mode wrapping. -/
def nextGeneration (entries : List DirEntry) : Nat :=
  ((listGenerationNumbers entries).foldr max 0 + 1) % 2 ^ 64

/-- Embeds `RepoCache::current_generation_number`: parse the generation
from the basename of `current`'s target. -/
def currentGenerationNumber (s : RepoState) : Option Nat :=
  match s.current with
  | none => none
  | some l => parseGenerationNumber l.target

/-- Embeds `RepoCache::prune_generations`: remove every directory entry
whose name parses as a generation not in `keep_generations`; other entries
are untouched.  One filesystem write per removed entry. -/
def pruneGenerations (keep : List Nat) (s : RepoState) : RepoState × List Effect :=
  let shouldRemove := fun (e : DirEntry) =>
    e.isDir && (match parseGenerationNumber e.name with
      | some g => !(keep.contains g)
      | none => false)
  ({ s with entries := s.entries.filter (fun e => !(shouldRemove e)) },
   List.replicate (s.entries.filter shouldRemove).length .fsWrite)

/-- Insert into a descending-sorted list, keeping it descending. -/
def insertDesc (x : Nat) : List Nat → List Nat
  | [] => [x]
  | y :: ys => if y ≤ x then x :: y :: ys else y :: insertDesc x ys

/-- Sort descending — embeds `sort_unstable_by(|a, b| b.cmp(a))`. -/
def sortDesc (l : List Nat) : List Nat :=
  l.foldr insertDesc []

/-- Embeds `RepoCache::keep_generations_with_grace` with
`PREVIOUS_GENERATION_GRACE_COUNT = 1`: the current generation plus the
highest other generation on disk, if any. -/
def keepGenerationsWithGrace (entries : List DirEntry) (current : Nat) : List Nat :=
  let others := (listGenerationNumbers entries).filter (fun g => !(g == current))
  current :: (sortDesc others).take 1

/-- Embeds `RepoCache::read_current_ref`: read the `current` symlink
(io error when absent), check the target exists (`SymlinkTargetMissing`),
parse `gen-N` from the target's basename (`InvalidGenerationName`), open
the worktree and read its HEAD commit. -/
def readCurrentRef (s : RepoState) : Except CacheError GenerationRef :=
  match s.current with
  | none => .error (.Io ("read_link failed".toList))
  | some l =>
    match s.entries.find? (fun e => e.name == l.target) with
    | none => .error (.SymlinkTargetMissing l.target)
    | some e =>
      match parseGenerationNumber l.target with
      | none => .error (.InvalidGenerationName l.target)
      | some g =>
        match e.headCommit with
        | none => .error (.Git (.Git ("failed to read HEAD".toList)))
        | some c => .ok ⟨l.target, g, c⟩

/-! ## Git CLI operations (cache/git.rs), with effect traces

Each operation validates its string arguments first (no effect on
rejection), then performs its filesystem preparation and spawns git; the
subprocess outcome is taken from the environment. -/

/-- Embeds `GitCli::clone_bare_shallow`: validate owner and repo, note
whether the destination existed, create parent directories, spawn
`git clone --bare --depth=1`.  On failure, when the destination did not
previously exist, the partial directory is removed. -/
def cloneBareShallow (env : Env) (owner repo : List Char) (s : RepoState) :
    Except GitError Unit × RepoState × List Effect :=
  match validateName owner ("owner".toList) with
  | .error e => (.error e, s, [])
  | .ok _ =>
    match validateName repo ("repo".toList) with
    | .error e => (.error e, s, [])
    | .ok _ =>
      let destExisted := s.mirror.existsOnDisk
      match env.clone with
      | .ok (branch, head) =>
        (.ok (), { s with mirror := .repo ⟨branch, head, true⟩ },
         [.fsWrite, .spawnGit])
      | .error stderr =>
        if destExisted then
          (.error (.CloneError stderr), s, [.fsWrite, .spawnGit])
        else
          (.error (.CloneError stderr), { s with mirror := .absent },
           [.fsWrite, .spawnGit, .fsWrite])

/-- Embeds `GitCli::fetch_shallow`: validate the branch, spawn
`git fetch --depth=1 origin +refs/heads/<branch>:refs/heads/<branch>`.
On success the mirror's HEAD commit becomes the fetched one. -/
def fetchShallow (env : Env) (branch : List Char) (s : RepoState) :
    Except GitError Unit × RepoState × List Effect :=
  match validateGitRef branch ("branch".toList) with
  | .error e => (.error e, s, [])
  | .ok _ =>
    match env.fetch with
    | .ok newHead =>
      match s.mirror with
      | .repo m =>
        (.ok (), { s with mirror := .repo { m with head := newHead } }, [.spawnGit])
      | _ => (.ok (), s, [.spawnGit])
    | .error stderr => (.error (.FetchError stderr), s, [.spawnGit])

/-- Embeds `GitCli::fetch_full`: identical to the shallow fetch except for
the missing `--depth=1` flag, which the state model does not distinguish. -/
def fetchFull (env : Env) (branch : List Char) (s : RepoState) :
    Except GitError Unit × RepoState × List Effect :=
  fetchShallow env branch s

/-- Embeds `GitCli::create_worktree`: validate the commit, create parent
directories, spawn `git worktree add --detach`.  On success the generation
directory appears as a directory entry whose worktree HEAD peels to the
pinned commit. -/
def createWorktree (env : Env) (commit dirName : List Char) (s : RepoState) :
    Except GitError Unit × RepoState × List Effect :=
  match validateGitRef commit ("commit".toList) with
  | .error e => (.error e, s, [])
  | .ok _ =>
    match env.worktree with
    | .ok _ =>
      (.ok (), { s with entries := s.entries ++ [⟨dirName, true, some commit⟩] },
       [.fsWrite, .spawnGit])
    | .error stderr => (.error (.WorktreeError stderr), s, [.fsWrite, .spawnGit])

/-- Embeds `cache::git::open_repository` at the mirror path. -/
def openRepository (s : RepoState) : Except GitError Mirror :=
  match s.mirror with
  | .absent => .error (.NotFound ("mirror path".toList))
  | .invalid => .error (.Git ("open failed".toList))
  | .repo m => .ok m

/-! ## RepoCache operations (cache/repo.rs) -/

/-- Embeds `RepoCache::initial_clone`: shallow bare clone (removing the
partial mirror on failure), resolve HEAD, allocate the next generation,
create its worktree (cleaned up on failure), atomically swap `current`
onto it (cleaned up on failure), then prune to the new generation. -/
def initialClone (env : Env) (key : RepoKey) (s : RepoState) :
    Except CacheError Unit × RepoState × List Effect :=
  let (cloneRes, s1, t1) := cloneBareShallow env key.owner.val key.repo.val s
  match cloneRes with
  | .error err =>
    (.error (.Git err), { s1 with mirror := .absent }, t1 ++ [.fsWrite])
  | .ok _ =>
    match openRepository s1 with
    | .error e => (.error (.Git e), s1, t1)
    | .ok m =>
      let commit := m.head
      let generation := nextGeneration s1.entries
      let genPath := generationDirName generation
      let (wtRes, s2, t2) := createWorktree env commit genPath s1
      match wtRes with
      | .error err =>
        (.error (.Git err), cleanupWorktree genPath s2, t1 ++ t2 ++ [.fsWrite])
      | .ok _ =>
        let (swapRes, s3, t3) := atomicSymlinkSwap env genPath s2
        match swapRes with
        | .error msg =>
          (.error (.Io msg), cleanupWorktree genPath s3, t1 ++ t2 ++ t3 ++ [.fsWrite])
        | .ok _ =>
          let (s4, t4) := pruneGenerations [generation] s3
          (.ok (), s4, t1 ++ t2 ++ t3 ++ t4)

/-- Embeds `RepoCache::refresh`: open the mirror, read the old branch and
HEAD, remember the generation `current` points at, probe shallowness
(`is_shallow_repo(..).unwrap_or(true)`, one subprocess, modelled as
reporting the mirror's state), fetch (shallow or full), re-read HEAD; then
either the unchanged-HEAD fast path (touch `current`, errors logged;
prune beyond the grace window) or the new-generation path (create
worktree, swap, prune to the new and previous generations). -/
def refresh (env : Env) (s : RepoState) :
    Except CacheError Unit × RepoState × List Effect :=
  match openRepository s with
  | .error e => (.error (.Git e), s, [])
  | .ok m =>
    let branch := m.branch
    let oldCommit := m.head
    let previousGeneration := currentGenerationNumber s
    let isShallow := m.shallow
    let (fetchRes, s1, t1) :=
      if isShallow then fetchShallow env branch s
      else fetchFull env branch s
    match fetchRes with
    | .error e => (.error (.Git e), s1, [.spawnGit] ++ t1)
    | .ok _ =>
      match openRepository s1 with
      | .error e => (.error (.Git e), s1, [.spawnGit] ++ t1)
      | .ok m1 =>
        let commit := m1.head
        if commit == oldCommit && currentLinkExists s1 then
          let (_, s2, t2) := touchSymlink env s1
          let (s3, t3) :=
            match currentGenerationNumber s2 with
            | some currentGen =>
              pruneGenerations (keepGenerationsWithGrace s2.entries currentGen) s2
            | none => (s2, [])
          (.ok (), s3, [.spawnGit] ++ t1 ++ t2 ++ t3)
        else
          let nextGen := nextGeneration s1.entries
          let genPath := generationDirName nextGen
          let (wtRes, s2, t2) := createWorktree env commit genPath s1
          match wtRes with
          | .error err =>
            (.error (.Git err), cleanupWorktree genPath s2,
             [.spawnGit] ++ t1 ++ t2 ++ [.fsWrite])
          | .ok _ =>
            let (swapRes, s3, t3) := atomicSymlinkSwap env genPath s2
            match swapRes with
            | .error msg =>
              (.error (.Io msg), cleanupWorktree genPath s3,
               [.spawnGit] ++ t1 ++ t2 ++ t3 ++ [.fsWrite])
            | .ok _ =>
              let keep := nextGen :: (match previousGeneration with
                | some p => if p == nextGen then [] else [p]
                | none => [])
              let (s4, t4) := pruneGenerations keep s3
              (.ok (), s4, [.spawnGit] ++ t1 ++ t2 ++ t3 ++ t4)

/-- The body of `RepoCache::ensure_current_with_status` from the lock
acquisition on: re-check freshness under the lock, then clone or refresh;
a failed attempt falls back to a still-readable `current`, otherwise the
attempt's error is returned. -/
def ensureCurrentLocked (maxAge : Nat) (env : Env) (key : RepoKey) (s : RepoState) :
    Except CacheError EnsureCurrentResult × RepoState × List Effect :=
  match env.lock with
  | .timedOut => (.error .LockFailed, s, [.lockAcquire])
  | .ioErr msg => (.error (.Io msg), s, [.lockAcquire])
  | .ok =>
    let recheck :=
      if currentLinkExists s && !(isStale s.current maxAge env.now) then
        match readCurrentRef s with
        | .ok cur => some cur
        | .error _ => none
      else none
    match recheck with
    | some cur => (.ok ⟨cur, false⟩, s, [.lockAcquire])
    | none =>
      let (attemptRes, s1, t1) :=
        if s.mirror.existsOnDisk then refresh env s
        else initialClone env key s
      match attemptRes with
      | .ok _ =>
        match readCurrentRef s1 with
        | .ok cur => (.ok ⟨cur, true⟩, s1, [.lockAcquire] ++ t1)
        | .error e => (.error e, s1, [.lockAcquire] ++ t1)
      | .error err =>
        match readCurrentRef s1 with
        | .ok cur => (.ok ⟨cur, false⟩, s1, [.lockAcquire] ++ t1)
        | .error _ => (.error err, s1, [.lockAcquire] ++ t1)

/-- Embeds `RepoCache::ensure_current_with_status`: the unlocked fast path
(fresh `current` read without any effect), then `ensureCurrentLocked`. -/
def ensureCurrentWithStatus (maxAge : Nat) (env : Env) (key : RepoKey) (s : RepoState) :
    Except CacheError EnsureCurrentResult × RepoState × List Effect :=
  if currentLinkExists s && !(isStale s.current maxAge env.now) then
    match readCurrentRef s with
    | .ok cur => (.ok ⟨cur, false⟩, s, [])
    | .error _ => ensureCurrentLocked maxAge env key s
  else ensureCurrentLocked maxAge env key s

/-- Embeds `RepoCache::ensure_current`. -/
def ensureCurrent (maxAge : Nat) (env : Env) (key : RepoKey) (s : RepoState) :
    Except CacheError GenerationRef × RepoState × List Effect :=
  let (res, s1, t1) := ensureCurrentWithStatus maxAge env key s
  (res.map (fun r => r.genRef), s1, t1)

/-- Embeds `RepoCache::force_refresh`: take the lock unconditionally
(`TimedOut` becomes `LockFailed`), clone or refresh with `?`-propagation
(no fallback), then read and return the current generation. -/
def forceRefresh (env : Env) (key : RepoKey) (s : RepoState) :
    Except CacheError GenerationRef × RepoState × List Effect :=
  match env.lock with
  | .timedOut => (.error .LockFailed, s, [.lockAcquire])
  | .ioErr msg => (.error (.Io msg), s, [.lockAcquire])
  | .ok =>
    let (attemptRes, s1, t1) :=
      if s.mirror.existsOnDisk then refresh env s
      else initialClone env key s
    match attemptRes with
    | .error err => (.error err, s1, [.lockAcquire] ++ t1)
    | .ok _ =>
      match readCurrentRef s1 with
      | .ok cur => (.ok cur, s1, [.lockAcquire] ++ t1)
      | .error e => (.error e, s1, [.lockAcquire] ++ t1)

/-! ## Inode table (crates/ghfs-fs/src/inode.rs)

The two `DashMap`s are embedded as association lists with first-match
lookup; `AtomicU64::fetch_add` becomes a sequential counter bump. -/

/-- Reserved inode constants, as in the source. -/
def ROOT_INO : Nat := 1

def VIRTUAL_INO_START : Nat := 2

def VIRTUAL_INO_END : Nat := 1000

def PASSTHROUGH_INO_START : Nat := 1001

/-- Embeds `inode::UnderlyingKey`: `(device, inode, generation)`. -/
structure UnderlyingKey where
  dev : Nat
  ino : Nat
  generation : Nat
deriving DecidableEq, Repr

/-- Embeds `inode::InodeInfo`. -/
structure InodeInfo where
  path : List Char
  key : UnderlyingKey
deriving DecidableEq, Repr

/-- Embeds `inode::InodeTable`: allocation counter, forward map
(ino → info) and reverse map (key → ino). -/
structure InodeTable where
  nextIno : Nat
  inodes : List (Nat × InodeInfo)
  reverse : List (UnderlyingKey × Nat)
deriving DecidableEq, Repr

/-- Embeds `InodeTable::new`. -/
def InodeTable.new : InodeTable :=
  ⟨PASSTHROUGH_INO_START, [], []⟩

/-- Embeds `InodeTable::get_or_insert`: return the existing inode for the
key if present, else allocate `next_ino` (post-incrementing it) and insert
into both maps.  Returns `(fuse_inode, is_new)` plus the updated table. -/
def InodeTable.getOrInsert (t : InodeTable) (path : List Char) (key : UnderlyingKey) :
    Nat × Bool × InodeTable :=
  match t.reverse.lookup key with
  | some ino => (ino, false, t)
  | none =>
    let ino := t.nextIno
    (ino, true,
     { nextIno := t.nextIno + 1,
       inodes := (ino, ⟨path, key⟩) :: t.inodes,
       reverse := (key, ino) :: t.reverse })

/-- Embeds `InodeTable::get`. -/
def InodeTable.get (t : InodeTable) (ino : Nat) : Option InodeInfo :=
  t.inodes.lookup ino

/-- Embeds `InodeTable::is_virtual`. -/
def InodeTable.isVirtual (ino : Nat) : Bool :=
  decide (ino < PASSTHROUGH_INO_START)

/-- Embeds `InodeTable::remove` (called from forget): drop the inode from
the forward map and its key from the reverse map. -/
def InodeTable.remove (t : InodeTable) (ino : Nat) : InodeTable :=
  match t.inodes.lookup ino with
  | none => t
  | some info =>
    { t with
      inodes := t.inodes.filter (fun q => !(q.1 == ino)),
      reverse := t.reverse.filter (fun p => !(p.1 == info.key)) }

/-- Embeds `InodeTable::clear_passthrough`: collect the inodes
`≥ PASSTHROUGH_INO_START` and remove each. -/
def InodeTable.clearPassthrough (t : InodeTable) : InodeTable :=
  let toRemove :=
    (t.inodes.filter (fun q => decide (PASSTHROUGH_INO_START ≤ q.1))).map (fun q => q.1)
  toRemove.foldl (fun acc ino => acc.remove ino) t

/-! ## Filesystem surface: write rejection and open (src/src/fs/mod.rs) -/

/-- POSIX errno values used by the surface layer. -/
def ENOENT : Nat := 2

def EIO_ERR : Nat := 5

def EISDIR : Nat := 21

def EINVAL : Nat := 22

def EROFS : Nat := 30

/-- `libc::O_ACCMODE` / `libc::O_RDONLY` on Linux. -/
def O_ACCMODE : Nat := 3

def O_RDONLY : Nat := 0

/-- The open-file handle table of `GhFs` (`open_files` plus `next_fh`). -/
structure OpenFiles where
  nextFh : Nat
  files : List (Nat × List Char)
deriving DecidableEq, Repr

/-- Embeds `Filesystem::open for GhFs`: reject any access mode other than
read-only with `EROFS`; reject virtual inodes with `EISDIR`; unknown inodes
give `ENOENT`; otherwise open the underlying file (`fileOpen` is the
outcome of `File::open`, an errno on failure) and assign the next monotonic
handle. -/
def GhFs.openFile (t : InodeTable) (ofs : OpenFiles) (fileOpen : Except Nat Unit)
    (ino flags : Nat) : Except Nat (Nat × OpenFiles) :=
  if flags &&& O_ACCMODE ≠ O_RDONLY then .error EROFS
  else if InodeTable.isVirtual ino then .error EISDIR
  else
    match t.get ino with
    | none => .error ENOENT
    | some info =>
      match fileOpen with
      | .ok _ =>
        let fh := ofs.nextFh
        .ok (fh, { nextFh := ofs.nextFh + 1, files := (fh, info.path) :: ofs.files })
      | .error errno => .error errno

/-- Embeds `Filesystem::setattr for GhFs`: unconditionally `EROFS`. -/
def GhFs.setattr (_ino : Nat) (_mode _uid _gid _size : Option Nat) : Except Nat Unit :=
  .error EROFS

/-- Embeds `Filesystem::mkdir for GhFs`: unconditionally `EROFS`. -/
def GhFs.mkdir (_parent : Nat) (_name : List Char) (_mode _umask : Nat) : Except Nat Unit :=
  .error EROFS

/-- Embeds `Filesystem::unlink for GhFs`: unconditionally `EROFS`. -/
def GhFs.unlink (_parent : Nat) (_name : List Char) : Except Nat Unit :=
  .error EROFS

/-- Embeds `Filesystem::rmdir for GhFs`: unconditionally `EROFS`. -/
def GhFs.rmdir (_parent : Nat) (_name : List Char) : Except Nat Unit :=
  .error EROFS

/-- Embeds `Filesystem::symlink for GhFs`: unconditionally `EROFS`. -/
def GhFs.symlink (_parent : Nat) (_linkName _target : List Char) : Except Nat Unit :=
  .error EROFS

/-- Embeds `Filesystem::rename for GhFs`: unconditionally `EROFS`. -/
def GhFs.rename (_parent : Nat) (_name : List Char) (_newparent : Nat)
    (_newname : List Char) (_flags : Nat) : Except Nat Unit :=
  .error EROFS

/-- Embeds `Filesystem::link for GhFs`: unconditionally `EROFS`. -/
def GhFs.link (_ino _newparent : Nat) (_newname : List Char) : Except Nat Unit :=
  .error EROFS

/-- Embeds `Filesystem::write for GhFs`: unconditionally `EROFS`. -/
def GhFs.write (_ino _fh : Nat) (_offset : Int) (_data : List Nat) : Except Nat Unit :=
  .error EROFS

/-- Embeds `Filesystem::create for GhFs`: unconditionally `EROFS`. -/
def GhFs.create (_parent : Nat) (_name : List Char) (_mode _umask : Nat)
    (_flags : Nat) : Except Nat Unit :=
  .error EROFS

/-- Embeds `Filesystem::mknod for GhFs`: unconditionally `EROFS`. -/
def GhFs.mknod (_parent : Nat) (_name : List Char) (_mode _umask _rdev : Nat) :
    Except Nat Unit :=
  .error EROFS

/-- Embeds `GitCli::clone_bare_full`: as `cloneBareShallow` but without the
depth limit, so the cloned mirror is not shallow. -/
def cloneBareFull (env : Env) (owner repo : List Char) (s : RepoState) :
    Except GitError Unit × RepoState × List Effect :=
  match validateName owner ("owner".toList) with
  | .error e => (.error e, s, [])
  | .ok _ =>
    match validateName repo ("repo".toList) with
    | .error e => (.error e, s, [])
    | .ok _ =>
      let destExisted := s.mirror.existsOnDisk
      match env.clone with
      | .ok (branch, head) =>
        (.ok (), { s with mirror := .repo ⟨branch, head, false⟩ },
         [.fsWrite, .spawnGit])
      | .error stderr =>
        if destExisted then
          (.error (.CloneError stderr), s, [.fsWrite, .spawnGit])
        else
          (.error (.CloneError stderr), { s with mirror := .absent },
           [.fsWrite, .spawnGit, .fsWrite])

/-- The conditions under which the specification says an owner/repo name is
rejected: empty, contains `..`, contains a path separator, starts with `-`,
or contains a NUL or control byte. -/
abbrev nameRejected (v : List Char) : Prop :=
  v = [] ∨ containsDotDot v = true ∨ v.contains '/' = true ∨ v.contains '\\' = true ∨
    v.head? = some '-' ∨ v.any isControlByte = true

/-- The conditions under which the specification says a branch/commit ref is
rejected: empty, contains `..`, starts with `-`, or contains a control
byte. -/
abbrev refRejected (v : List Char) : Prop :=
  v = [] ∨ containsDotDot v = true ∨ v.head? = some '-' ∨ v.any isControlByte = true

/-- A worktree-base directory entry counted as a generation directory: a
directory whose name parses as `gen-<number>`. -/
def isGenerationDirEntry (e : DirEntry) : Bool :=
  e.isDir && (parseGenerationNumber e.name).isSome

/-- Internal consistency of an inode table, as maintained by its operations:
the allocation counter starts at or above `PASSTHROUGH_INO_START`, every
forward-map inode is a previously allocated passthrough inode, and every
reverse-map entry points at a forward-map entry carrying the same key. -/
abbrev InodeTable.Coherent (t : InodeTable) : Prop :=
  PASSTHROUGH_INO_START ≤ t.nextIno ∧
  (∀ q ∈ t.inodes, PASSTHROUGH_INO_START ≤ q.1 ∧ q.1 < t.nextIno) ∧
  (∀ p ∈ t.reverse, ((t.inodes.lookup p.2).any fun info => info.key == p.1) = true)

/-! # Theorems

First a collection of shared helper lemmas, then one theorem (plus witness
or counterexample where required) per specification claim. -/

/-! ## Helper lemmas: parsing and display -/

theorem splitOnce_eq (sep : Char) (s a b : List Char) (h : splitOnce sep s = some (a, b)) :
    s = a ++ sep :: b := by
  induction s generalizing a b with
  | nil => simp [splitOnce] at h
  | cons c rest ih =>
    rw [splitOnce] at h
    split at h
    · next hc =>
      simp only [Option.some.injEq, Prod.mk.injEq] at h
      obtain ⟨ha, hb⟩ := h
      subst ha; subst hb; subst hc
      rfl
    · next hc =>
      cases hsp : splitOnce sep rest with
      | none => rw [hsp] at h; simp at h
      | some ab =>
        obtain ⟨x, y⟩ := ab
        rw [hsp] at h
        simp only [Option.some.injEq, Prod.mk.injEq] at h
        obtain ⟨ha, hb⟩ := h
        subst ha; subst hb
        simp [ih x y hsp]

theorem ownerFromStr_val (s : List Char) (ow : Owner) (h : Owner.fromStr s = .ok ow) :
    ow.val = s := by
  unfold Owner.fromStr at h
  split at h
  · cases h
  · split at h
    · cases h
    · split at h
      · cases h
      · split at h
        · cases h
        · cases h; rfl

theorem repoFromStr_val (s : List Char) (rp : Repo) (h : Repo.fromStr s = .ok rp) :
    rp.val = s := by
  unfold Repo.fromStr at h
  split at h
  · cases h
  · split at h
    · cases h
    · split at h
      · cases h
      · cases h; rfl

/-- C9: parsing a repo key and displaying it round-trips: for every string
`s` that parses successfully, `parse(s).to_string() == s`; and the five
listed malformed inputs are rejected with the stated error kinds
(`MissingSeparator`, `InvalidOwner`, `InvalidRepo`, `InvalidOwner`,
`InvalidRepo` respectively). -/
theorem repoKey_roundtrip_and_rejections :
    (∀ (s : List Char) (k : RepoKey), RepoKey.fromStr s = .ok k → k.toDisplay = s) ∧
    RepoKey.fromStr ("octocat".toList) = .error .MissingSeparator ∧
    RepoKey.fromStr ("/repo".toList) = .error (.InvalidOwner .Empty) ∧
    RepoKey.fromStr ("owner/".toList) = .error (.InvalidRepo .Empty) ∧
    RepoKey.fromStr ("-owner/repo".toList) = .error (.InvalidOwner (.InvalidStart '-')) ∧
    RepoKey.fromStr ("owner/.repo".toList) = .error (.InvalidRepo (.InvalidStart '.')) := by
  refine ⟨?_, rfl, rfl, rfl, rfl, rfl⟩
  intro s k h
  unfold RepoKey.fromStr at h
  cases hsp : splitOnce '/' s with
  | none => rw [hsp] at h; cases h
  | some ab =>
    obtain ⟨ownerStr, repoStr⟩ := ab
    rw [hsp] at h
    dsimp only at h
    cases how : Owner.fromStr ownerStr with
    | error e => rw [how] at h; cases h
    | ok ow =>
      rw [how] at h
      dsimp only at h
      cases hrp : Repo.fromStr repoStr with
      | error e => rw [hrp] at h; cases h
      | ok rp =>
        rw [hrp] at h
        cases h
        have hs := splitOnce_eq '/' s ownerStr repoStr hsp
        rw [RepoKey.toDisplay, ownerFromStr_val ownerStr ow how,
          repoFromStr_val repoStr rp hrp, hs]

/-- Witness for C9's round-trip implication at a concrete input. -/
theorem repoKey_roundtrip_witness :
    RepoKey.toDisplay ⟨⟨("octocat".toList)⟩, ⟨("Hello-World".toList)⟩⟩ =
      ("octocat/Hello-World".toList) :=
  repoKey_roundtrip_and_rejections.1 ("octocat/Hello-World".toList)
    ⟨⟨("octocat".toList)⟩, ⟨("Hello-World".toList)⟩⟩ rfl

/-! ## Helper lemmas: git input validation -/

theorem validateName_error_of (v n : List Char) (h : nameRejected v) :
    ∃ msg, validateName v n = .error (.InvalidInput msg) := by
  unfold validateName
  split_ifs with h1 h2 h3 h4 h5
  · exact ⟨_, rfl⟩
  · exact ⟨_, rfl⟩
  · exact ⟨_, rfl⟩
  · exact ⟨_, rfl⟩
  · exact ⟨_, rfl⟩
  · exfalso
    rcases h with h | h | h | h | h | h
    · exact h1 h
    · exact h2 h
    · exact h3 (by simp only [Bool.or_eq_true]; exact Or.inl h)
    · exact h3 (by simp only [Bool.or_eq_true]; exact Or.inr h)
    · exact h4 h
    · exact h5 h

theorem validateName_shape (v n : List Char) :
    validateName v n = .ok () ∨ ∃ msg, validateName v n = .error (.InvalidInput msg) := by
  unfold validateName
  split_ifs
  · exact .inr ⟨_, rfl⟩
  · exact .inr ⟨_, rfl⟩
  · exact .inr ⟨_, rfl⟩
  · exact .inr ⟨_, rfl⟩
  · exact .inr ⟨_, rfl⟩
  · exact .inl rfl

theorem validateGitRef_error_of (v n : List Char) (h : refRejected v) :
    ∃ msg, validateGitRef v n = .error (.InvalidInput msg) := by
  unfold validateGitRef
  split_ifs with h1 h2 h3 h4
  · exact ⟨_, rfl⟩
  · exact ⟨_, rfl⟩
  · exact ⟨_, rfl⟩
  · exact ⟨_, rfl⟩
  · exfalso
    rcases h with h | h | h | h
    · exact h1 h
    · exact h2 h
    · exact h3 h
    · exact h4 h

/-- C6: the git driver validates every owner/repo name and every
branch/commit ref before doing anything else: a rejected string (per the
conditions of `nameRejected` resp. `refRejected`) makes the operation fail
with `InvalidInput`, with the state unchanged and an empty effect trace —
in particular no git subprocess is spawned. -/
theorem git_validation_rejects :
    (∀ (env : Env) (owner repo : List Char) (s : RepoState),
        nameRejected owner ∨ nameRejected repo →
        (∃ msg, cloneBareShallow env owner repo s = (.error (.InvalidInput msg), s, [])) ∧
        (∃ msg, cloneBareFull env owner repo s = (.error (.InvalidInput msg), s, []))) ∧
    (∀ (env : Env) (branch : List Char) (s : RepoState),
        refRejected branch →
        (∃ msg, fetchShallow env branch s = (.error (.InvalidInput msg), s, [])) ∧
        (∃ msg, fetchFull env branch s = (.error (.InvalidInput msg), s, []))) ∧
    (∀ (env : Env) (commit dirName : List Char) (s : RepoState),
        refRejected commit →
        ∃ msg, createWorktree env commit dirName s = (.error (.InvalidInput msg), s, [])) := by
  refine ⟨?_, ?_, ?_⟩
  · intro env owner repo s h
    rcases h with h | h
    · obtain ⟨msg, hv⟩ := validateName_error_of owner ("owner".toList) h
      exact ⟨⟨msg, by unfold cloneBareShallow; rw [hv]⟩,
             ⟨msg, by unfold cloneBareFull; rw [hv]⟩⟩
    · rcases validateName_shape owner ("owner".toList) with hok | ⟨msg, herr⟩
      · obtain ⟨msg, hv⟩ := validateName_error_of repo ("repo".toList) h
        exact ⟨⟨msg, by unfold cloneBareShallow; rw [hok, hv]⟩,
               ⟨msg, by unfold cloneBareFull; rw [hok, hv]⟩⟩
      · exact ⟨⟨msg, by unfold cloneBareShallow; rw [herr]⟩,
               ⟨msg, by unfold cloneBareFull; rw [herr]⟩⟩
  · intro env branch s h
    obtain ⟨msg, hv⟩ := validateGitRef_error_of branch ("branch".toList) h
    exact ⟨⟨msg, by unfold fetchShallow; rw [hv]⟩,
           ⟨msg, by unfold fetchFull fetchShallow; rw [hv]⟩⟩
  · intro env commit dirName s h
    obtain ⟨msg, hv⟩ := validateGitRef_error_of commit ("commit".toList) h
    exact ⟨msg, by unfold createWorktree; rw [hv]⟩

/-- Witness for C6 at concrete rejected inputs (a leading-dash owner and a
leading-dash branch), with a concrete environment and state. -/
theorem git_validation_rejects_witness :
    (∃ msg, cloneBareShallow ⟨0, .ok, .ok ([], []), .ok [], .ok (), true, true⟩
        ("-owner".toList) ("repo".toList) ⟨.absent, [], none⟩ =
        (.error (.InvalidInput msg), ⟨.absent, [], none⟩, [])) ∧
    (∃ msg, fetchShallow ⟨0, .ok, .ok ([], []), .ok [], .ok (), true, true⟩
        ("-branch".toList) ⟨.absent, [], none⟩ =
        (.error (.InvalidInput msg), ⟨.absent, [], none⟩, [])) :=
  ⟨(git_validation_rejects.1 _ ("-owner".toList) ("repo".toList) _
      (Or.inl (by right; right; right; right; left; rfl))).1,
   (git_validation_rejects.2.1 _ ("-branch".toList) _
      (by right; right; left; rfl)).1⟩

/-- C7: every write-like operation of the filesystem surface (setattr,
mkdir, unlink, rmdir, symlink, rename, link, write, create, mknod) returns
`EROFS` for every inode and argument; `open` returns `EROFS` for any access
mode other than read-only and `EISDIR` for a virtual inode. -/
theorem write_ops_rejected :
    (∀ ino mode uid gid size, GhFs.setattr ino mode uid gid size = .error EROFS) ∧
    (∀ parent name mode umask, GhFs.mkdir parent name mode umask = .error EROFS) ∧
    (∀ parent name, GhFs.unlink parent name = .error EROFS) ∧
    (∀ parent name, GhFs.rmdir parent name = .error EROFS) ∧
    (∀ parent linkName target, GhFs.symlink parent linkName target = .error EROFS) ∧
    (∀ parent name newparent newname flags,
        GhFs.rename parent name newparent newname flags = .error EROFS) ∧
    (∀ ino newparent newname, GhFs.link ino newparent newname = .error EROFS) ∧
    (∀ ino fh offset data, GhFs.write ino fh offset data = .error EROFS) ∧
    (∀ parent name mode umask flags,
        GhFs.create parent name mode umask flags = .error EROFS) ∧
    (∀ parent name mode umask rdev,
        GhFs.mknod parent name mode umask rdev = .error EROFS) ∧
    (∀ t ofs fileOpen ino flags, flags &&& O_ACCMODE ≠ O_RDONLY →
        GhFs.openFile t ofs fileOpen ino flags = .error EROFS) ∧
    (∀ t ofs fileOpen ino flags, flags &&& O_ACCMODE = O_RDONLY →
        InodeTable.isVirtual ino = true →
        GhFs.openFile t ofs fileOpen ino flags = .error EISDIR) := by
  refine ⟨fun _ _ _ _ _ => rfl, fun _ _ _ _ => rfl, fun _ _ => rfl, fun _ _ => rfl,
    fun _ _ _ => rfl, fun _ _ _ _ _ => rfl, fun _ _ _ => rfl, fun _ _ _ _ => rfl,
    fun _ _ _ _ _ => rfl, fun _ _ _ _ _ => rfl, ?_, ?_⟩
  · intro t ofs fileOpen ino flags h
    unfold GhFs.openFile
    rw [if_pos h]
  · intro t ofs fileOpen ino flags h hv
    unfold GhFs.openFile
    rw [if_neg (by simp [h]), if_pos hv]

/-- Witness for C7's open guards: a write-intent open (`O_WRONLY`) on a
passthrough inode is `EROFS`; a read-only open of the root inode is
`EISDIR`. -/
theorem write_ops_rejected_witness :
    GhFs.openFile InodeTable.new ⟨1, []⟩ (.ok ()) 2000 1 = .error EROFS ∧
    GhFs.openFile InodeTable.new ⟨1, []⟩ (.ok ()) ROOT_INO 0 = .error EISDIR :=
  ⟨write_ops_rejected.2.2.2.2.2.2.2.2.2.2.1 InodeTable.new ⟨1, []⟩ (.ok ()) 2000 1
      (by decide),
   write_ops_rejected.2.2.2.2.2.2.2.2.2.2.2 InodeTable.new ⟨1, []⟩ (.ok ()) ROOT_INO 0
      (by decide) (by decide)⟩

/-! ## Helper lemmas: maxima of generation lists -/

theorem mem_le_foldrMax (l : List Nat) (g : Nat) (hg : g ∈ l) : g ≤ l.foldr max 0 := by
  induction l with
  | nil => cases hg
  | cons x xs ih =>
    rcases List.mem_cons.1 hg with rfl | h
    · exact le_max_left _ _
    · exact le_trans (ih h) (le_max_right _ _)

theorem foldrMax_le (l : List Nat) (m : Nat) (h : ∀ g ∈ l, g ≤ m) : l.foldr max 0 ≤ m := by
  induction l with
  | nil => exact Nat.zero_le m
  | cons x xs ih =>
    exact max_le (h x (List.mem_cons_self x xs))
      (ih (fun g hg => h g (List.mem_cons_of_mem x hg)))

theorem foldrMax_lt (l : List Nat) (c : Nat) (hc : 0 < c) (h : ∀ g ∈ l, g < c) :
    l.foldr max 0 < c := by
  induction l with
  | nil => exact hc
  | cons x xs ih =>
    exact max_lt (h x (List.mem_cons_self x xs))
      (ih (fun g hg => h g (List.mem_cons_of_mem x hg)))

/-- C5: generation allocation returns 1 when no entry parses as a
generation; otherwise, writing `m` for the maximum parsed generation (and
barring `u64` wraparound), it returns `m + 1`; entries that are not
directories or whose names do not parse as `gen-<digits>` never affect the
result; and the generation directory name is `gen-` followed by the decimal
number zero-padded to 6 digits, printed verbatim when longer. -/
theorem generation_allocation :
    (∀ entries : List DirEntry,
        listGenerationNumbers entries = [] → nextGeneration entries = 1) ∧
    (∀ (entries : List DirEntry) (m : Nat),
        m ∈ listGenerationNumbers entries →
        (∀ g ∈ listGenerationNumbers entries, g ≤ m) →
        m < 2 ^ 64 - 1 →
        nextGeneration entries = m + 1) ∧
    (∀ (entries : List DirEntry) (e : DirEntry),
        e.isDir = false ∨ parseGenerationNumber e.name = none →
        nextGeneration (e :: entries) = nextGeneration entries) ∧
    (∀ n, (natDecimalRepr n).length ≤ 6 →
        generationDirName n =
          ("gen-".toList) ++ (List.replicate (6 - (natDecimalRepr n).length) '0'
            ++ natDecimalRepr n)) ∧
    (∀ n, 6 < (natDecimalRepr n).length →
        generationDirName n = ("gen-".toList) ++ natDecimalRepr n) := by
  refine ⟨?_, ?_, ?_, fun n _ => rfl, ?_⟩
  · intro entries h
    unfold nextGeneration
    rw [h]
    rfl
  · intro entries m hmem hub hlt
    unfold nextGeneration
    have hmax : (listGenerationNumbers entries).foldr max 0 = m :=
      le_antisymm (foldrMax_le _ m hub) (mem_le_foldrMax _ m hmem)
    rw [hmax]
    exact Nat.mod_eq_of_lt (by omega)
  · intro entries e h
    unfold nextGeneration listGenerationNumbers
    have hnone : (if e.isDir then parseGenerationNumber e.name else none) = none := by
      rcases h with h | h
      · rw [h]; rfl
      · rw [h]; exact ite_self none
    rw [List.filterMap_cons, hnone]
  · intro n h
    unfold generationDirName
    rw [Nat.sub_eq_zero_of_le (le_of_lt h)]
    rfl

/-- Witness for C5 at a concrete directory listing: `gen-000003` together
with a `current` file and a non-generation directory allocates 4. -/
theorem generation_allocation_witness :
    nextGeneration
      [⟨("gen-000003".toList), true, none⟩, ⟨("current".toList), false, none⟩,
       ⟨("other".toList), true, none⟩] = 4 :=
  generation_allocation.2.1 _ 3 (by decide) (by decide) (by decide)


/-! ## Helper lemmas: association-list lookups -/

theorem lookup_cons_self {α β : Type} [DecidableEq α] (k : α) (v : β) (l : List (α × β)) :
    ((k, v) :: l).lookup k = some v := by
  rw [List.lookup_cons, beq_self_eq_true]

theorem lookup_cons_ne {α β : Type} [DecidableEq α] (k k' : α) (v : β) (l : List (α × β))
    (h : k ≠ k') : ((k', v) :: l).lookup k = l.lookup k := by
  rw [List.lookup_cons, beq_false_of_ne h]

theorem mem_of_lookup {α β : Type} [DecidableEq α] (l : List (α × β)) (k : α) (v : β)
    (h : l.lookup k = some v) : (k, v) ∈ l := by
  induction l with
  | nil => cases h
  | cons q rest ih =>
    obtain ⟨k2, v2⟩ := q
    by_cases hk : k = k2
    · subst hk
      rw [lookup_cons_self] at h
      cases h
      exact List.mem_cons_self _ _
    · rw [lookup_cons_ne _ _ _ _ hk] at h
      exact List.mem_cons_of_mem _ (ih h)

theorem lookup_isSome_of_mem {α β : Type} [DecidableEq α] (l : List (α × β)) (p : α × β)
    (h : p ∈ l) : (l.lookup p.1).isSome = true := by
  induction l with
  | nil => cases h
  | cons q rest ih =>
    obtain ⟨k2, v2⟩ := q
    rcases List.mem_cons.1 h with rfl | hm
    · rw [lookup_cons_self]
      rfl
    · by_cases hk : p.1 = k2
      · rw [hk, lookup_cons_self]
        rfl
      · rw [lookup_cons_ne _ _ _ _ hk]
        exact ih hm

theorem lookup_filter_self {α β : Type} [DecidableEq α] (l : List (α × β)) (k : α) :
    (l.filter (fun p => !(p.1 == k))).lookup k = none := by
  induction l with
  | nil => rfl
  | cons q rest ih =>
    obtain ⟨k2, v2⟩ := q
    rw [List.filter_cons]
    by_cases hk : k2 = k
    · subst hk
      simp only [beq_self_eq_true, Bool.not_true, Bool.false_eq_true, if_false]
      exact ih
    · simp only [beq_false_of_ne hk, Bool.not_false, eq_self_iff_true, if_true]
      rw [lookup_cons_ne _ _ _ _ (fun h2 => hk h2.symm)]
      exact ih

theorem lookup_filter_ne {α β : Type} [DecidableEq α] (l : List (α × β)) (i j : α)
    (h : j ≠ i) :
    (l.filter (fun q => !(q.1 == i))).lookup j = l.lookup j := by
  induction l with
  | nil => rfl
  | cons q rest ih =>
    obtain ⟨k2, v2⟩ := q
    rw [List.filter_cons]
    by_cases hk : k2 = i
    · subst hk
      simp only [beq_self_eq_true, Bool.not_true, Bool.false_eq_true, if_false]
      rw [ih, lookup_cons_ne _ _ _ _ h]
    · simp only [beq_false_of_ne hk, Bool.not_false, eq_self_iff_true, if_true]
      by_cases hj : j = k2
      · subst hj
        rw [lookup_cons_self, lookup_cons_self]
      · rw [lookup_cons_ne _ _ _ _ hj, lookup_cons_ne _ _ _ _ hj]
        exact ih

/-! ## Helper lemmas: inode table -/

theorem InodeTable.remove_nextIno (t : InodeTable) (i : Nat) :
    (t.remove i).nextIno = t.nextIno := by
  unfold InodeTable.remove
  cases t.inodes.lookup i
  · rfl
  · rfl

theorem InodeTable.foldl_remove_nextIno (l : List Nat) (t : InodeTable) :
    (l.foldl (fun acc ino => acc.remove ino) t).nextIno = t.nextIno := by
  induction l generalizing t with
  | nil => rfl
  | cons i rest ih =>
    rw [List.foldl_cons, ih, InodeTable.remove_nextIno]

/-- Folding `remove` over a list that covers every forward-map inode of a
reverse-consistent table empties both maps. -/
theorem InodeTable.foldl_remove_clears (l : List Nat) : ∀ (t : InodeTable),
    (∀ q ∈ t.inodes, q.1 ∈ l) →
    (∀ p ∈ t.reverse, ∃ info, t.inodes.lookup p.2 = some info ∧ info.key = p.1) →
    (l.foldl (fun acc ino => acc.remove ino) t).inodes = [] ∧
    (l.foldl (fun acc ino => acc.remove ino) t).reverse = [] := by
  induction l with
  | nil =>
    intro t h1 h2
    have hi : t.inodes = [] := by
      cases hin : t.inodes with
      | nil => rfl
      | cons q rest => exact absurd (h1 q (hin ▸ List.mem_cons_self q rest)) (by simp)
    refine ⟨hi, ?_⟩
    cases hrv : t.reverse with
    | nil => exact hrv
    | cons p rest =>
      obtain ⟨info, hl, _⟩ := h2 p (hrv ▸ List.mem_cons_self p rest)
      rw [hi] at hl
      cases hl
  | cons i rest ih =>
    intro t h1 h2
    rw [List.foldl_cons]
    cases hli : t.inodes.lookup i with
    | none =>
      have hrem : t.remove i = t := by unfold InodeTable.remove; rw [hli]
      rw [hrem]
      refine ih t (fun q hq => ?_) h2
      rcases List.mem_cons.1 (h1 q hq) with hqi | hqr
      · exact absurd (lookup_isSome_of_mem t.inodes q hq) (by rw [hqi, hli]; simp)
      · exact hqr
    | some info =>
      have hrem : t.remove i =
          { t with
            inodes := t.inodes.filter (fun q => !(q.1 == i)),
            reverse := t.reverse.filter (fun p => !(p.1 == info.key)) } := by
        unfold InodeTable.remove; rw [hli]
      rw [hrem]
      apply ih
      · intro q hq
        have hmem := List.mem_filter.1 hq
        have hne : q.1 ≠ i := by
          intro hqi
          have := hmem.2
          rw [hqi] at this
          simp at this
        rcases List.mem_cons.1 (h1 q hmem.1) with hqi | hqr
        · exact absurd hqi hne
        · exact hqr
      · intro p hp
        have hmem := List.mem_filter.1 hp
        have hkne : p.1 ≠ info.key := by
          intro hpk
          have := hmem.2
          rw [hpk] at this
          simp at this
        obtain ⟨info2, hl2, hk2⟩ := h2 p hmem.1
        have hpne : p.2 ≠ i := by
          intro hpi
          rw [hpi, hli] at hl2
          cases hl2
          exact hkne hk2.symm
        refine ⟨info2, ?_, hk2⟩
        rw [lookup_filter_ne _ _ _ hpne]
        exact hl2

theorem coherent_reverse_lookup {t : InodeTable}
    (hrev : ∀ p ∈ t.reverse, ((t.inodes.lookup p.2).any fun info => info.key == p.1) = true)
    (k : UnderlyingKey) (i : Nat) (h : t.reverse.lookup k = some i) :
    ∃ info, t.inodes.lookup i = some info ∧ info.key = k := by
  have hmem := mem_of_lookup _ _ _ h
  have hany : ((t.inodes.lookup i).any fun info => info.key == k) = true := hrev _ hmem
  cases hlj : t.inodes.lookup i with
  | none => rw [hlj] at hany; simp at hany
  | some info =>
    rw [hlj] at hany
    exact ⟨info, rfl, by simpa using hany⟩

theorem coherent_ino_lt {t : InodeTable}
    (hbound : ∀ q ∈ t.inodes, PASSTHROUGH_INO_START ≤ q.1 ∧ q.1 < t.nextIno)
    {i : Nat} {info : InodeInfo} (h : t.inodes.lookup i = some info) : i < t.nextIno :=
  (hbound (i, info) (mem_of_lookup _ _ _ h)).2

/-- Under coherence, clearing passthrough entries empties both maps and
leaves the allocation counter unchanged. -/
theorem clearPassthrough_spec (t : InodeTable)
    (hbound : ∀ q ∈ t.inodes, PASSTHROUGH_INO_START ≤ q.1 ∧ q.1 < t.nextIno)
    (hrev : ∀ p ∈ t.reverse, ((t.inodes.lookup p.2).any fun info => info.key == p.1) = true) :
    t.clearPassthrough.reverse = [] ∧ t.clearPassthrough.nextIno = t.nextIno := by
  unfold InodeTable.clearPassthrough
  have hclr := InodeTable.foldl_remove_clears
    ((t.inodes.filter (fun q => decide (PASSTHROUGH_INO_START ≤ q.1))).map (fun q => q.1)) t
    (fun q hq => List.mem_map.2 ⟨q, List.mem_filter.2 ⟨hq, by
      simpa using (hbound q hq).1⟩, rfl⟩)
    (fun p hp => by
      have hany : ((t.inodes.lookup p.2).any fun info => info.key == p.1) = true := hrev p hp
      cases hlj : t.inodes.lookup p.2 with
      | none => rw [hlj] at hany; simp at hany
      | some info2 =>
        rw [hlj] at hany
        exact ⟨info2, rfl, by simpa using hany⟩)
  exact ⟨hclr.2, InodeTable.foldl_remove_nextIno _ t⟩

/-- C8: inode identity in the passthrough table.  Looking the same
underlying key up twice returns the same inode (and the second lookup
allocates nothing); after the inode is removed (forget), or after all
passthrough entries are cleared on a generation change, looking the same
key up again allocates a fresh inode different from the original one. -/
theorem inode_identity (t : InodeTable) (path path2 : List Char) (key : UnderlyingKey)
    (hC : t.Coherent) :
    (∀ i b t₁, t.getOrInsert path key = (i, b, t₁) →
       t₁.getOrInsert path2 key = (i, false, t₁)) ∧
    (∀ i b t₁, t.getOrInsert path key = (i, b, t₁) →
       ((t₁.remove i).getOrInsert path2 key).2.1 = true ∧
       ((t₁.remove i).getOrInsert path2 key).1 ≠ i) ∧
    (∀ i, t.reverse.lookup key = some i →
       (t.clearPassthrough.getOrInsert path2 key).2.1 = true ∧
       (t.clearPassthrough.getOrInsert path2 key).1 ≠ i) := by
  obtain ⟨hstart, hbound, hrev⟩ := hC
  refine ⟨?_, ?_, ?_⟩
  · intro i b t₁ h
    unfold InodeTable.getOrInsert at h ⊢
    cases hl : t.reverse.lookup key with
    | some j =>
      rw [hl] at h
      simp only [Prod.mk.injEq] at h
      obtain ⟨rfl, rfl, rfl⟩ := h
      rw [hl]
    | none =>
      rw [hl] at h
      simp only [Prod.mk.injEq] at h
      obtain ⟨rfl, rfl, rfl⟩ := h
      rw [lookup_cons_self]
  · intro i b t₁ h
    unfold InodeTable.getOrInsert at h
    cases hl : t.reverse.lookup key with
    | none =>
      rw [hl] at h
      simp only [Prod.mk.injEq] at h
      obtain ⟨rfl, rfl, rfl⟩ := h
      have h1 : ((t.nextIno, (⟨path, key⟩ : InodeInfo)) :: t.inodes).lookup t.nextIno =
          some ⟨path, key⟩ := lookup_cons_self _ _ _
      have h2 : (InodeTable.mk (t.nextIno + 1)
            ((t.nextIno, ⟨path, key⟩) :: t.inodes) ((key, t.nextIno) :: t.reverse)).remove
            t.nextIno =
          ⟨t.nextIno + 1,
           (((t.nextIno, ⟨path, key⟩) :: t.inodes).filter (fun q => !(q.1 == t.nextIno))),
           (((key, t.nextIno) :: t.reverse).filter (fun p => !(p.1 == key)))⟩ := by
        unfold InodeTable.remove
        rw [h1]
      rw [h2]
      unfold InodeTable.getOrInsert
      rw [lookup_filter_self]
      exact ⟨rfl, by simp⟩
    | some j =>
      rw [hl] at h
      simp only [Prod.mk.injEq] at h
      obtain ⟨rfl, rfl, rfl⟩ := h
      obtain ⟨info, hlj, hik⟩ := coherent_reverse_lookup hrev key j hl
      have hjlt : j < t.nextIno := coherent_ino_lt hbound hlj
      have h2 : t.remove j =
          ⟨t.nextIno, t.inodes.filter (fun q => !(q.1 == j)),
           t.reverse.filter (fun p => !(p.1 == info.key))⟩ := by
        unfold InodeTable.remove
        rw [hlj]
      have h3 : (t.remove j).reverse.lookup key = none := by
        rw [h2, ← hik]
        exact lookup_filter_self _ _
      unfold InodeTable.getOrInsert
      rw [h3]
      refine ⟨rfl, ?_⟩
      have hn : (t.remove j).nextIno = t.nextIno := InodeTable.remove_nextIno t j
      simp only [hn]
      omega
  · intro i hl
    obtain ⟨info, hli, _⟩ := coherent_reverse_lookup hrev key i hl
    have hilt : i < t.nextIno := coherent_ino_lt hbound hli
    obtain ⟨hrv0, hni0⟩ := clearPassthrough_spec t hbound hrev
    have hlk : t.clearPassthrough.reverse.lookup key = none := by rw [hrv0]; rfl
    unfold InodeTable.getOrInsert
    rw [hlk]
    refine ⟨rfl, ?_⟩
    simp only [hni0]
    omega

/-- Witness for C8 at a concrete table: inserting the key `(1, 100, 1)`
into a fresh table and looking it up again returns the same inode 1001
without allocating. -/
theorem inode_identity_witness :
    InodeTable.getOrInsert
      ⟨1002, [(1001, ⟨[], ⟨1, 100, 1⟩⟩)], [(⟨1, 100, 1⟩, 1001)]⟩ [] ⟨1, 100, 1⟩ =
      (1001, false, ⟨1002, [(1001, ⟨[], ⟨1, 100, 1⟩⟩)], [(⟨1, 100, 1⟩, 1001)]⟩) :=
  (inode_identity InodeTable.new [] [] ⟨1, 100, 1⟩ (by decide)).1 1001 true
    ⟨1002, [(1001, ⟨[], ⟨1, 100, 1⟩⟩)], [(⟨1, 100, 1⟩, 1001)]⟩ rfl

/-! ## Helper lemmas: success paths of the cache primitives -/

theorem fetchShallow_ok (env : Env) (branch : List Char) (s : RepoState) (m : Mirror)
    (newHead : List Char)
    (hbr : validateGitRef branch ("branch".toList) = .ok ())
    (hm : s.mirror = .repo m) (hf : env.fetch = .ok newHead) :
    fetchShallow env branch s =
      (.ok (), { s with mirror := .repo { m with head := newHead } }, [.spawnGit]) := by
  unfold fetchShallow
  rw [hbr, hf, hm]

theorem createWorktree_ok (env : Env) (commit dirName : List Char) (s : RepoState)
    (hc : validateGitRef commit ("commit".toList) = .ok ())
    (hw : env.worktree = .ok ()) :
    createWorktree env commit dirName s =
      (.ok (), { s with entries := s.entries ++ [⟨dirName, true, some commit⟩] },
       [.fsWrite, .spawnGit]) := by
  unfold createWorktree
  rw [hc, hw]

theorem atomicSymlinkSwap_ok (env : Env) (target : List Char) (s : RepoState)
    (hs : env.swapOk = true) :
    atomicSymlinkSwap env target s =
      (.ok (), { s with current := some ⟨target, env.now⟩ }, [.fsWrite]) := by
  unfold atomicSymlinkSwap
  rw [if_pos hs]

theorem touchSymlink_ok (env : Env) (s : RepoState) (l : CurrentLink)
    (hcur : s.current = some l) (ht : env.touchOk = true) :
    touchSymlink env s =
      (.ok (), { s with current := some ⟨l.target, env.now⟩ }, [.fsWrite]) := by
  unfold touchSymlink
  rw [hcur]
  dsimp only
  rw [if_pos ht]

/-- C4: when `current` exists, is not stale, and reads back as a valid
generation reference, `ensure_current_with_status` returns that reference
with `refreshed = false`, leaves the state untouched, and performs no
effect at all: no lock acquisition, no git subprocess, no filesystem
write. -/
theorem ensure_current_fresh_pure_read (maxAge : Nat) (env : Env) (key : RepoKey)
    (s : RepoState) (cur : GenerationRef)
    (hex : currentLinkExists s = true)
    (hfresh : isStale s.current maxAge env.now = false)
    (hread : readCurrentRef s = .ok cur) :
    ensureCurrentWithStatus maxAge env key s = (.ok ⟨cur, false⟩, s, []) := by
  unfold ensureCurrentWithStatus
  rw [if_pos (by rw [hex, hfresh]; rfl), hread]

/-- Witness for C4: a concrete fresh state is served without any effect. -/
theorem ensure_current_fresh_pure_read_witness :
    ensureCurrentWithStatus 50 ⟨120, .ok, .error [], .error [], .error [], false, false⟩
      ⟨⟨("octocat".toList)⟩, ⟨("hello".toList)⟩⟩
      ⟨.repo ⟨("main".toList), ("abc".toList), true⟩,
       [⟨("gen-000001".toList), true, some ("abc".toList)⟩],
       some ⟨("gen-000001".toList), 100⟩⟩ =
      (.ok ⟨⟨("gen-000001".toList), 1, ("abc".toList)⟩, false⟩,
       ⟨.repo ⟨("main".toList), ("abc".toList), true⟩,
        [⟨("gen-000001".toList), true, some ("abc".toList)⟩],
        some ⟨("gen-000001".toList), 100⟩⟩, []) :=
  ensure_current_fresh_pure_read 50 ⟨120, .ok, .error [], .error [], .error [], false, false⟩
    ⟨⟨("octocat".toList)⟩, ⟨("hello".toList)⟩⟩ _ _ (by decide) (by decide) rfl

/-- C10: `force_refresh` performs no fallback: a lock-acquisition timeout is
reported as the distinct `LockFailed` error, and when the clone/refresh
attempt fails its error is returned as-is even when a previously valid
`current` symlink is still readable in the post-attempt state. -/
theorem force_refresh_no_fallback (env : Env) (key : RepoKey) (s : RepoState) :
    (env.lock = .timedOut →
       forceRefresh env key s = (.error .LockFailed, s, [.lockAcquire])) ∧
    (∀ (err : CacheError) (s₁ : RepoState) (t₁ : List Effect) (cur : GenerationRef),
       env.lock = .ok →
       (if s.mirror.existsOnDisk then refresh env s else initialClone env key s) =
         (.error err, s₁, t₁) →
       readCurrentRef s₁ = .ok cur →
       forceRefresh env key s = (.error err, s₁, [Effect.lockAcquire] ++ t₁)) := by
  constructor
  · intro hl
    unfold forceRefresh
    rw [hl]
  · intro err s₁ t₁ cur hl hat _hread
    unfold forceRefresh
    rw [hl]
    dsimp only
    rw [hat]

/-- Witness for C10: a fetch failure during `force_refresh` surfaces as the
fetch error even though `current` is still readable. -/
theorem force_refresh_no_fallback_witness :
    forceRefresh ⟨120, .ok, .error [], .error ("net".toList), .error [], false, false⟩
      ⟨⟨("octocat".toList)⟩, ⟨("hello".toList)⟩⟩
      ⟨.repo ⟨("main".toList), ("abc".toList), true⟩,
       [⟨("gen-000001".toList), true, some ("abc".toList)⟩],
       some ⟨("gen-000001".toList), 100⟩⟩ =
      (.error (.Git (.FetchError ("net".toList))),
       ⟨.repo ⟨("main".toList), ("abc".toList), true⟩,
        [⟨("gen-000001".toList), true, some ("abc".toList)⟩],
        some ⟨("gen-000001".toList), 100⟩⟩,
       [Effect.lockAcquire] ++ [Effect.spawnGit, Effect.spawnGit]) :=
  (force_refresh_no_fallback ⟨120, .ok, .error [], .error ("net".toList), .error [], false, false⟩
      ⟨⟨("octocat".toList)⟩, ⟨("hello".toList)⟩⟩ _).2
    (.Git (.FetchError ("net".toList))) _ [Effect.spawnGit, Effect.spawnGit]
    ⟨("gen-000001".toList), 1, ("abc".toList)⟩ rfl rfl rfl

/-- C1: when the unlocked freshness guard fails, the lock is acquired and
the clone/refresh attempt fails, `ensure_current_with_status` returns a
still-readable pre-existing `current` reference (with `refreshed = false`)
instead of the error; when no valid `current` can be read, the original
attempt error is returned. -/
theorem ensure_current_fallback (maxAge : Nat) (env : Env) (key : RepoKey) (s : RepoState)
    (err : CacheError) (s₁ : RepoState) (t₁ : List Effect)
    (hguard : (currentLinkExists s && !(isStale s.current maxAge env.now)) = false)
    (hlock : env.lock = .ok)
    (hat : (if s.mirror.existsOnDisk then refresh env s else initialClone env key s) =
       (.error err, s₁, t₁)) :
    (∀ cur, readCurrentRef s₁ = .ok cur →
       ensureCurrentWithStatus maxAge env key s =
         (.ok ⟨cur, false⟩, s₁, [Effect.lockAcquire] ++ t₁)) ∧
    ((∃ e, readCurrentRef s₁ = .error e) →
       ensureCurrentWithStatus maxAge env key s =
         (.error err, s₁, [Effect.lockAcquire] ++ t₁)) := by
  have hg : ¬((currentLinkExists s && !(isStale s.current maxAge env.now)) = true) := by
    rw [hguard]
    simp
  unfold ensureCurrentWithStatus ensureCurrentLocked
  rw [if_neg hg, hlock]
  dsimp only
  rw [if_neg hg]
  dsimp only
  rw [hat]
  dsimp only
  constructor
  · intro cur hread
    rw [hread]
  · intro hread
    obtain ⟨e, hread⟩ := hread
    rw [hread]

/-- Witness for C1: a stale but readable `current` survives a failed fetch
and is returned with `refreshed = false`. -/
theorem ensure_current_fallback_witness :
    ensureCurrentWithStatus 10 ⟨120, .ok, .error [], .error ("net".toList), .error [], false, false⟩
      ⟨⟨("octocat".toList)⟩, ⟨("hello".toList)⟩⟩
      ⟨.repo ⟨("main".toList), ("abc".toList), true⟩,
       [⟨("gen-000001".toList), true, some ("abc".toList)⟩],
       some ⟨("gen-000001".toList), 100⟩⟩ =
      (.ok ⟨⟨("gen-000001".toList), 1, ("abc".toList)⟩, false⟩,
       ⟨.repo ⟨("main".toList), ("abc".toList), true⟩,
        [⟨("gen-000001".toList), true, some ("abc".toList)⟩],
        some ⟨("gen-000001".toList), 100⟩⟩,
       [Effect.lockAcquire] ++ [Effect.spawnGit, Effect.spawnGit]) :=
  (ensure_current_fallback 10
      ⟨120, .ok, .error [], .error ("net".toList), .error [], false, false⟩
      ⟨⟨("octocat".toList)⟩, ⟨("hello".toList)⟩⟩
      ⟨.repo ⟨("main".toList), ("abc".toList), true⟩,
       [⟨("gen-000001".toList), true, some ("abc".toList)⟩],
       some ⟨("gen-000001".toList), 100⟩⟩
      (.Git (.FetchError ("net".toList)))
      ⟨.repo ⟨("main".toList), ("abc".toList), true⟩,
       [⟨("gen-000001".toList), true, some ("abc".toList)⟩],
       some ⟨("gen-000001".toList), 100⟩⟩
      [Effect.spawnGit, Effect.spawnGit]
      (by decide) rfl rfl).1 ⟨("gen-000001".toList), 1, ("abc".toList)⟩ rfl

/-- C3: a refresh in which the fetched HEAD equals the old HEAD and
`current` still exists creates no new generation directory (every entry
afterwards already existed), leaves the target of `current` unchanged, and
strictly increases the `current` symlink's mtime (the touch succeeding and
the clock having advanced past the old mtime). -/
theorem refresh_unchanged_head (env : Env) (s : RepoState) (m : Mirror) (l : CurrentLink)
    (hm : s.mirror = .repo m)
    (hbr : validateGitRef m.branch ("branch".toList) = .ok ())
    (hf : env.fetch = .ok m.head)
    (hcur : s.current = some l)
    (hex : currentLinkExists s = true)
    (ht : env.touchOk = true)
    (hmt : l.mtime < env.now) :
    (refresh env s).1 = .ok () ∧
    (∃ mt, (refresh env s).2.1.current = some ⟨l.target, mt⟩ ∧ l.mtime < mt) ∧
    (∀ e ∈ (refresh env s).2.1.entries, e ∈ s.entries) := by
  obtain ⟨mb, mh, msh⟩ := m
  obtain ⟨lt, lmt⟩ := l
  obtain ⟨smir, sent, scur⟩ := s
  dsimp only at hm hcur
  subst hm
  subst hcur
  have hop : openRepository ⟨.repo ⟨mb, mh, msh⟩, sent, some ⟨lt, lmt⟩⟩ =
      .ok ⟨mb, mh, msh⟩ := rfl
  have hfet := fetchShallow_ok env mb ⟨.repo ⟨mb, mh, msh⟩, sent, some ⟨lt, lmt⟩⟩
    ⟨mb, mh, msh⟩ mh hbr rfl hf
  have htou := touchSymlink_ok env ⟨.repo ⟨mb, mh, msh⟩, sent, some ⟨lt, lmt⟩⟩
    ⟨lt, lmt⟩ rfl ht
  unfold refresh
  rw [hop]
  dsimp only
  rw [show (fetchFull env mb ⟨.repo ⟨mb, mh, msh⟩, sent, some ⟨lt, lmt⟩⟩) =
      (fetchShallow env mb ⟨.repo ⟨mb, mh, msh⟩, sent, some ⟨lt, lmt⟩⟩) from rfl,
    ite_self, hfet]
  dsimp only
  rw [hop]
  dsimp only
  rw [if_pos (by rw [beq_self_eq_true] at *; simpa using hex), htou]
  dsimp only
  cases hpg : parseGenerationNumber lt with
  | none =>
    rw [show currentGenerationNumber
        ⟨.repo ⟨mb, mh, msh⟩, sent, some ⟨lt, env.now⟩⟩ = parseGenerationNumber lt from rfl,
      hpg]
    exact ⟨rfl, ⟨env.now, rfl, hmt⟩, fun e he => he⟩
  | some cg =>
    rw [show currentGenerationNumber
        ⟨.repo ⟨mb, mh, msh⟩, sent, some ⟨lt, env.now⟩⟩ = parseGenerationNumber lt from rfl,
      hpg]
    unfold pruneGenerations
    dsimp only
    exact ⟨rfl, ⟨env.now, rfl, hmt⟩, fun e he => (List.mem_filter.1 he).1⟩

/-- Witness for C3: a concrete unchanged-HEAD refresh touches `current`
from mtime 100 to 200 and keeps the single generation directory. -/
theorem refresh_unchanged_head_witness :
    (refresh ⟨200, .ok, .error [], .ok ("abc".toList), .error [], false, true⟩
      ⟨.repo ⟨("main".toList), ("abc".toList), true⟩,
       [⟨("gen-000001".toList), true, some ("abc".toList)⟩],
       some ⟨("gen-000001".toList), 100⟩⟩).1 = .ok () ∧
    (∃ mt, (refresh ⟨200, .ok, .error [], .ok ("abc".toList), .error [], false, true⟩
      ⟨.repo ⟨("main".toList), ("abc".toList), true⟩,
       [⟨("gen-000001".toList), true, some ("abc".toList)⟩],
       some ⟨("gen-000001".toList), 100⟩⟩).2.1.current =
        some ⟨("gen-000001".toList), mt⟩ ∧ 100 < mt) ∧
    (∀ e ∈ (refresh ⟨200, .ok, .error [], .ok ("abc".toList), .error [], false, true⟩
      ⟨.repo ⟨("main".toList), ("abc".toList), true⟩,
       [⟨("gen-000001".toList), true, some ("abc".toList)⟩],
       some ⟨("gen-000001".toList), 100⟩⟩).2.1.entries,
       e ∈ [DirEntry.mk ("gen-000001".toList) true (some ("abc".toList))]) :=
  refresh_unchanged_head ⟨200, .ok, .error [], .ok ("abc".toList), .error [], false, true⟩
    ⟨.repo ⟨("main".toList), ("abc".toList), true⟩,
     [⟨("gen-000001".toList), true, some ("abc".toList)⟩],
     some ⟨("gen-000001".toList), 100⟩⟩
    ⟨("main".toList), ("abc".toList), true⟩ ⟨("gen-000001".toList), 100⟩
    rfl rfl rfl rfl (by decide) rfl (by decide)

/-! ## Helper lemmas: decimal printing and generation-name round trip -/

theorem toDecimalAux_eq (fuel n : Nat) (h : n < fuel) :
    toDecimalAux fuel n =
      ((Nat.digits 10 n).map (fun d => Char.ofNat (48 + d))).reverse := by
  induction fuel generalizing n with
  | zero => omega
  | succ fuel ih =>
    by_cases h0 : n = 0
    · subst h0
      simp [toDecimalAux]
    · rw [toDecimalAux, if_neg h0]
      rw [ih (n / 10) (by
        have : n / 10 < n := Nat.div_lt_self (Nat.pos_of_ne_zero h0) (by norm_num)
        omega)]
      rw [Nat.digits_def' (by norm_num : (1 : ℕ) < 10) (Nat.pos_of_ne_zero h0)]
      simp

theorem natDecimalRepr_eq (n : Nat) :
    natDecimalRepr n =
      if n = 0 then ['0']
      else ((Nat.digits 10 n).map (fun d => Char.ofNat (48 + d))).reverse := by
  unfold natDecimalRepr
  by_cases h0 : n = 0
  · rw [if_pos h0, if_pos h0]
  · rw [if_neg h0, if_neg h0, toDecimalAux_eq (n + 1) n (by omega)]

theorem digitChar_isDigit (d : Nat) (h : d < 10) : (Char.ofNat (48 + d)).isDigit = true := by
  interval_cases d <;> decide

theorem digitChar_toNat (d : Nat) (h : d < 10) : (Char.ofNat (48 + d)).toNat = 48 + d := by
  interval_cases d <;> decide

theorem natDecimalRepr_ne_nil (n : Nat) : natDecimalRepr n ≠ [] := by
  rw [natDecimalRepr_eq]
  by_cases h0 : n = 0
  · rw [if_pos h0]; simp
  · rw [if_neg h0]
    simp [Nat.digits_ne_nil_iff_ne_zero, h0]

theorem natDecimalRepr_all_digits (n : Nat) :
    (natDecimalRepr n).all Char.isDigit = true := by
  rw [natDecimalRepr_eq]
  by_cases h0 : n = 0
  · rw [if_pos h0]; decide
  · rw [if_neg h0]
    rw [List.all_eq_true]
    intro c hc
    rw [List.mem_reverse, List.mem_map] at hc
    obtain ⟨d, hd, rfl⟩ := hc
    exact digitChar_isDigit d (Nat.digits_lt_base (by norm_num) hd)

theorem foldl_digits_val (ds : List Nat) (hd : ∀ d ∈ ds, d < 10) (a : Nat) :
    ((ds.map (fun d => Char.ofNat (48 + d))).reverse).foldl
      (fun acc c => acc * 10 + (c.toNat - 48)) a =
      a * 10 ^ ds.length + Nat.ofDigits 10 ds := by
  induction ds generalizing a with
  | nil => simp [Nat.ofDigits]
  | cons d ds ih =>
    rw [List.map_cons, List.reverse_cons, List.foldl_append]
    rw [ih (fun x hx => hd x (List.mem_cons_of_mem d hx))]
    have hdlt : d < 10 := hd d (List.mem_cons_self d ds)
    simp only [List.foldl_cons, List.foldl_nil, digitChar_toNat d hdlt,
      Nat.add_sub_cancel_left]
    rw [Nat.ofDigits_cons, List.length_cons, pow_succ]
    ring

theorem natDecimalRepr_val (n : Nat) :
    (natDecimalRepr n).foldl (fun acc c => acc * 10 + (c.toNat - 48)) 0 = n := by
  rw [natDecimalRepr_eq]
  by_cases h0 : n = 0
  · rw [if_pos h0, h0]; decide
  · rw [if_neg h0]
    rw [foldl_digits_val _ (fun d hd => Nat.digits_lt_base (by norm_num) hd) 0]
    simpa using Nat.ofDigits_digits 10 n

theorem foldl_zeros_pad (k : Nat) (cs : List Char) :
    ((List.replicate k '0') ++ cs).foldl (fun acc c => acc * 10 + (c.toNat - 48)) 0 =
      cs.foldl (fun acc c => acc * 10 + (c.toNat - 48)) 0 := by
  induction k with
  | zero => rfl
  | succ k ih =>
    rw [List.replicate_succ, List.cons_append, List.foldl_cons]
    simpa using ih

/-- The generation directory name parses back to its generation number (for
values representable in `u64`). -/
theorem parse_generationDirName (g : Nat) (hg : g < 2 ^ 64) :
    parseGenerationNumber (generationDirName g) = some g := by
  show parseU64 (List.replicate (6 - (natDecimalRepr g).length) '0' ++ natDecimalRepr g) =
    some g
  have hall : (List.replicate (6 - (natDecimalRepr g).length) '0' ++
      natDecimalRepr g).all Char.isDigit = true := by
    rw [List.all_eq_true]
    intro c hc
    rcases List.mem_append.1 hc with hc | hc
    · rw [List.eq_of_mem_replicate hc]; decide
    · exact (List.all_eq_true.1 (natDecimalRepr_all_digits g)) c hc
  have hne : ¬(List.replicate (6 - (natDecimalRepr g).length) '0' ++
      natDecimalRepr g = ([] : List Char)) := by
    intro h
    exact natDecimalRepr_ne_nil g (List.append_eq_nil.1 h).2
  have hplus : ¬((List.replicate (6 - (natDecimalRepr g).length) '0' ++
      natDecimalRepr g).head? = some '+') := by
    intro h
    cases hR : List.replicate (6 - (natDecimalRepr g).length) '0' ++ natDecimalRepr g with
    | nil => rw [hR] at h; cases h
    | cons c rest =>
      rw [hR] at h
      cases h
      have hm : '+' ∈ List.replicate (6 - (natDecimalRepr g).length) '0' ++
          natDecimalRepr g := by rw [hR]; exact List.mem_cons_self _ _
      exact absurd ((List.all_eq_true.1 hall) '+' hm) (by decide)
  unfold parseU64
  dsimp only
  rw [if_neg hplus, if_neg hne, if_pos hall, foldl_zeros_pad, natDecimalRepr_val,
    if_pos hg]

/-- A duplicate-free list whose elements are all equal has at most one
element. -/
theorem length_le_one_of_nodup_const {β : Type} (l : List β) (a : β)
    (hnd : l.Nodup) (h : ∀ x ∈ l, x = a) : l.length ≤ 1 := by
  match l with
  | [] => simp
  | [x] => simp
  | x :: y :: rest =>
    exfalso
    obtain ⟨hxn, _⟩ := List.nodup_cons.1 hnd
    refine hxn ?_
    rw [h x (List.mem_cons_self _ _),
      ← h y (List.mem_cons_of_mem _ (List.mem_cons_self _ _))]
    exact List.mem_cons_self y rest

/-- After filtering, a worktree listing made of previously present entries
(whose surviving generation directories all share one name) plus one new
entry contains at most two generation directories. -/
theorem filtered_gen_count_le_two (sent : List DirEntry) (newEntry : DirEntry)
    (F : DirEntry → Bool) (gname : List Char)
    (hnodup : (sent.map (fun e => e.name)).Nodup)
    (hold : ∀ e ∈ sent, F e = true → isGenerationDirEntry e = true → e.name = gname) :
    (((sent ++ [newEntry]).filter F).filter isGenerationDirEntry).length ≤ 2 := by
  rw [List.filter_append, List.filter_append, List.length_append]
  have h1 : ((sent.filter F).filter isGenerationDirEntry).length ≤ 1 := by
    have hsub : List.Sublist ((sent.filter F).filter isGenerationDirEntry) sent :=
      List.Sublist.trans (List.filter_sublist _) (List.filter_sublist _)
    have hnd : (((sent.filter F).filter isGenerationDirEntry).map (fun e => e.name)).Nodup :=
      List.Nodup.sublist (List.Sublist.map _ hsub) hnodup
    have hlen := length_le_one_of_nodup_const _ gname hnd (fun x hx => by
      obtain ⟨e, he, rfl⟩ := List.mem_map.1 hx
      obtain ⟨hef, hgen⟩ := List.mem_filter.1 he
      obtain ⟨hes, hF⟩ := List.mem_filter.1 hef
      exact hold e hes hF hgen)
    rwa [List.length_map] at hlen
  have h2 : (([newEntry].filter F).filter isGenerationDirEntry).length ≤ 1 :=
    le_trans (List.length_filter_le _ _) (le_trans (List.length_filter_le _ _) (by simp))
  omega

/-- C2: a refresh in which the fetched HEAD differs from the old HEAD (with
the worktree creation and swap succeeding, under the documented state
invariants: `current` points at an existing canonical generation directory,
names are duplicate-free, and no generation approaches `u64::MAX`) chooses
a generation id strictly greater than the previous current generation,
swaps `current` onto the new generation directory, and leaves at most two
generation directories — the new one and optionally the previous one. -/
theorem refresh_changed_head (env : Env) (s : RepoState) (m : Mirror)
    (newHead : List Char) (p : Nat)
    (hm : s.mirror = .repo m)
    (hbr : validateGitRef m.branch ("branch".toList) = .ok ())
    (hf : env.fetch = .ok newHead)
    (hne : (newHead == m.head) = false)
    (hcv : validateGitRef newHead ("commit".toList) = .ok ())
    (hw : env.worktree = .ok ())
    (hsw : env.swapOk = true)
    (hprev : currentGenerationNumber s = some p)
    (hpmem : p ∈ listGenerationNumbers s.entries)
    (hbound : ∀ g ∈ listGenerationNumbers s.entries, g < 2 ^ 64 - 1)
    (hnodup : (s.entries.map (fun e => e.name)).Nodup)
    (hcanon : ∀ e ∈ s.entries, e.isDir = true →
        ∀ g, parseGenerationNumber e.name = some g → e.name = generationDirName g) :
    p < nextGeneration s.entries ∧
    (refresh env s).1 = .ok () ∧
    (refresh env s).2.1.current =
      some ⟨generationDirName (nextGeneration s.entries), env.now⟩ ∧
    (∀ e ∈ (refresh env s).2.1.entries, isGenerationDirEntry e = true →
       parseGenerationNumber e.name = some (nextGeneration s.entries) ∨
       parseGenerationNumber e.name = some p) ∧
    ((refresh env s).2.1.entries.filter isGenerationDirEntry).length ≤ 2 := by
  have hmaxlt : (listGenerationNumbers s.entries).foldr max 0 < 2 ^ 64 - 1 :=
    foldrMax_lt _ _ (by norm_num) hbound
  have hnexteq : nextGeneration s.entries =
      (listGenerationNumbers s.entries).foldr max 0 + 1 := by
    unfold nextGeneration
    exact Nat.mod_eq_of_lt (by omega)
  have hplt : p < nextGeneration s.entries := by
    have := mem_le_foldrMax _ p hpmem
    omega
  refine ⟨hplt, ?_⟩
  obtain ⟨mb, mh, msh⟩ := m
  obtain ⟨smir, sent, scur⟩ := s
  dsimp only at hm hprev hpmem hbound hnodup hcanon hplt hnexteq hmaxlt ⊢
  subst hm
  have hop : openRepository ⟨.repo ⟨mb, mh, msh⟩, sent, scur⟩ = .ok ⟨mb, mh, msh⟩ := rfl
  have hfet := fetchShallow_ok env mb ⟨.repo ⟨mb, mh, msh⟩, sent, scur⟩
    ⟨mb, mh, msh⟩ newHead hbr rfl hf
  have hop1 : openRepository ⟨.repo ⟨mb, newHead, msh⟩, sent, scur⟩ =
      .ok ⟨mb, newHead, msh⟩ := rfl
  have hwt := createWorktree_ok env newHead (generationDirName (nextGeneration sent))
    ⟨.repo ⟨mb, newHead, msh⟩, sent, scur⟩ hcv hw
  have hswp := atomicSymlinkSwap_ok env (generationDirName (nextGeneration sent))
    ⟨.repo ⟨mb, newHead, msh⟩,
     sent ++ [⟨generationDirName (nextGeneration sent), true, some newHead⟩], scur⟩ hsw
  unfold refresh
  rw [hop]
  try dsimp only
  rw [show fetchFull env mb ⟨.repo ⟨mb, mh, msh⟩, sent, scur⟩ =
      fetchShallow env mb ⟨.repo ⟨mb, mh, msh⟩, sent, scur⟩ from rfl, ite_self, hfet]
  try dsimp only
  rw [hop1]
  try dsimp only
  rw [if_neg (by rw [hne]; simp)]
  try dsimp only
  rw [hwt]
  try dsimp only
  rw [hswp]
  try dsimp only
  rw [hprev]
  try dsimp only
  rw [show (p == nextGeneration sent) = false from beq_false_of_ne (Nat.ne_of_lt hplt)]
  try dsimp only
  unfold pruneGenerations
  try dsimp only
  refine ⟨rfl, rfl, ?_, ?_⟩
  · intro e he hgen
    obtain ⟨hmem, hkeepb⟩ := List.mem_filter.1 he
    obtain ⟨hdir, hps⟩ : e.isDir = true ∧ (parseGenerationNumber e.name).isSome = true := by
      simpa [isGenerationDirEntry] using hgen
    obtain ⟨gg, hparse⟩ := Option.isSome_iff_exists.1 hps
    rw [Bool.not_eq_true'] at hkeepb
    rw [hdir, hparse] at hkeepb
    have hc : gg = nextGeneration sent ∨ gg = p := by
      have hi : ¬gg = nextGeneration sent → gg = p := by simpa using hkeepb
      by_cases hx : gg = nextGeneration sent
      · exact Or.inl hx
      · exact Or.inr (hi hx)
    rcases hc with rfl | rfl
    · exact Or.inl hparse
    · exact Or.inr hparse
  · refine filtered_gen_count_le_two sent
      ⟨generationDirName (nextGeneration sent), true, some newHead⟩ _
      (generationDirName p) hnodup ?_
    intro e hes hF hgen
    obtain ⟨hdir, hps⟩ : e.isDir = true ∧ (parseGenerationNumber e.name).isSome = true := by
      simpa [isGenerationDirEntry] using hgen
    obtain ⟨gg, hparse⟩ := Option.isSome_iff_exists.1 hps
    rw [Bool.not_eq_true'] at hF
    rw [hdir, hparse] at hF
    have hc : gg = nextGeneration sent ∨ gg = p := by
      have hi : ¬gg = nextGeneration sent → gg = p := by simpa using hF
      by_cases hx : gg = nextGeneration sent
      · exact Or.inl hx
      · exact Or.inr (hi hx)
    have hggmem : gg ∈ listGenerationNumbers sent :=
      List.mem_filterMap.2 ⟨e, hes, by rw [hdir]; exact hparse⟩
    have hgglt : gg < nextGeneration sent := by
      have := mem_le_foldrMax _ gg hggmem
      omega
    have hggp : gg = p := by
      rcases hc with rfl | rfl
      · omega
      · rfl
    rw [hcanon e hes hdir gg hparse, hggp]

/-- Witness for C2: a concrete changed-HEAD refresh from generation 1
allocates generation 2, swaps `current` onto `gen-000002`, and keeps at
most two generation directories. -/
theorem refresh_changed_head_witness :
    1 < nextGeneration [⟨("gen-000001".toList), true, some ("abc".toList)⟩] ∧
    (refresh ⟨200, .ok, .error [], .ok ("def".toList), .ok (), true, false⟩
      ⟨.repo ⟨("main".toList), ("abc".toList), true⟩,
       [⟨("gen-000001".toList), true, some ("abc".toList)⟩],
       some ⟨("gen-000001".toList), 100⟩⟩).1 = .ok () ∧
    (refresh ⟨200, .ok, .error [], .ok ("def".toList), .ok (), true, false⟩
      ⟨.repo ⟨("main".toList), ("abc".toList), true⟩,
       [⟨("gen-000001".toList), true, some ("abc".toList)⟩],
       some ⟨("gen-000001".toList), 100⟩⟩).2.1.current =
      some ⟨generationDirName
        (nextGeneration [⟨("gen-000001".toList), true, some ("abc".toList)⟩]), 200⟩ ∧
    (∀ e ∈ (refresh ⟨200, .ok, .error [], .ok ("def".toList), .ok (), true, false⟩
      ⟨.repo ⟨("main".toList), ("abc".toList), true⟩,
       [⟨("gen-000001".toList), true, some ("abc".toList)⟩],
       some ⟨("gen-000001".toList), 100⟩⟩).2.1.entries, isGenerationDirEntry e = true →
       parseGenerationNumber e.name =
         some (nextGeneration [⟨("gen-000001".toList), true, some ("abc".toList)⟩]) ∨
       parseGenerationNumber e.name = some 1) ∧
    ((refresh ⟨200, .ok, .error [], .ok ("def".toList), .ok (), true, false⟩
      ⟨.repo ⟨("main".toList), ("abc".toList), true⟩,
       [⟨("gen-000001".toList), true, some ("abc".toList)⟩],
       some ⟨("gen-000001".toList), 100⟩⟩).2.1.entries.filter
        isGenerationDirEntry).length ≤ 2 :=
  refresh_changed_head ⟨200, .ok, .error [], .ok ("def".toList), .ok (), true, false⟩
    ⟨.repo ⟨("main".toList), ("abc".toList), true⟩,
     [⟨("gen-000001".toList), true, some ("abc".toList)⟩],
     some ⟨("gen-000001".toList), 100⟩⟩
    ⟨("main".toList), ("abc".toList), true⟩ ("def".toList) 1
    rfl rfl rfl (by decide) rfl rfl rfl rfl (by decide) (by decide) (by decide)
    (by
      intro e he hdir g hg
      rw [List.mem_singleton] at he
      subst he
      rw [show parseGenerationNumber ("gen-000001".toList) = some 1 from rfl] at hg
      cases hg
      rfl)
